import Mathlib

/- Verification of the media-packer core (media_packer_simple.py).

   Shallow embedding conventions:
   * Python ints that are nonnegative in every reachable state are Nat.
   * Python floats (cpu percent, load average) are modelled as exact rationals;
     none of the verified properties depends on binary rounding.
   * `Optional[int]` fields become `Option Nat`; Python truthiness tests
     (`if self.config.piece_size`) are translated as explicit `= 0` tests.
   * Methods reading host state (`psutil`) are given the readings as an
     explicit `ResourceProfile` argument. -/

/-- Config dataclass (media_packer_simple.py lines 117-130): only the fields
the verified functions read. -/
structure Config where
  auto_optimize : Bool
  piece_size : Option Nat
  max_workers : Option Nat

/-- Host readings gathered inside `_get_optimal_workers` (lines 237-250):
physical/logical core counts, 1-min load average, instantaneous cpu percent,
total memory bytes. -/
structure ResourceProfile where
  physical_cores : Nat
  logical_cores : Nat
  load_avg : ℚ
  cpu_percent : ℚ
  mem_total : Nat

/-- TorrentCreator._get_optimal_piece_size (lines 208-227).  The override
branch translates `self.config.piece_size if self.config.piece_size else 0`
(both `None` and `0` are falsy, giving 0). -/
def _get_optimal_piece_size (config : Config) (total_size : Nat) : Nat :=
  if config.auto_optimize = false then
    match config.piece_size with
    | some n => n
    | none => 0
  else if total_size < 50 * 1024 * 1024 then 256 * 1024
  else if total_size < 500 * 1024 * 1024 then 1024 * 1024
  else if total_size < 1 * 1024 * 1024 * 1024 then 2 * 1024 * 1024
  else if total_size < 4 * 1024 * 1024 * 1024 then 4 * 1024 * 1024
  else if total_size < 16 * 1024 * 1024 * 1024 then 8 * 1024 * 1024
  else if total_size < 64 * 1024 * 1024 * 1024 then 16 * 1024 * 1024
  else 8 * 1024 * 1024

/-- Core-count tier of `_get_optimal_workers` (lines 252-264). -/
def base_workers (physical_cores : Nat) : Nat :=
  if physical_cores ≥ 32 then min 20 (physical_cores / 2)
  else if physical_cores ≥ 16 then min 16 (physical_cores / 2 + 2)
  else if physical_cores ≥ 10 then min 12 (physical_cores + 2)
  else if physical_cores ≥ 8 then min 8 (physical_cores + 1)
  else if physical_cores ≥ 4 then physical_cores + 1
  else max 3 physical_cores

/-- Cpu-utilization / load adjustment of `_get_optimal_workers` (lines 266-270):
`if cpu_percent < 50: w = min(w + 2, 16)`
`elif cpu_percent > 80 or load_avg > physical_cores * 0.8: w = max(2, w // 2)`. -/
def cpu_load_adjust (physical_cores w : Nat) (cpu_percent load_avg : ℚ) : Nat :=
  if cpu_percent < 50 then min (w + 2) 16
  else if cpu_percent > 80 ∨ load_avg > (physical_cores : ℚ) * (4 / 5) then max 2 (w / 2)
  else w

/-- Memory adjustment of `_get_optimal_workers` (lines 272-282). -/
def memory_adjust (mem_total w : Nat) : Nat :=
  if mem_total < 4 * 1024 * 1024 * 1024 then min w 4
  else if mem_total ≥ 32 * 1024 * 1024 * 1024 then min (w + 4) 20
  else w

/-- TorrentCreator._get_optimal_workers (lines 229-284).  The non-auto branch
translates `self.config.max_workers if self.config.max_workers else 1`
(`None` and `0` are falsy, giving 1). -/
def _get_optimal_workers (config : Config) (prof : ResourceProfile) : Nat :=
  if config.auto_optimize = false then
    match config.max_workers with
    | some n => if n = 0 then 1 else n
    | none => 1
  else
    min
      (memory_adjust prof.mem_total
        (cpu_load_adjust prof.physical_cores (base_workers prof.physical_cores)
          prof.cpu_percent prof.load_avg))
      20

/- Range analyzer (_analyze_episode_ranges, lines 1166-1239).  Episode tokens
are the exact f-strings of the source: `E{n:02d}` and `E{s:02d}-E{e:02d}`. -/

/-- Python `f"{n:02d}"` for a natural number: pad to two digits with zeros. -/
def fmt2 (n : Nat) : String := if n < 10 then "0" ++ toString n else toString n

/-- A single-episode token `E{n:02d}`. -/
def epTok (n : Nat) : String := "E" ++ fmt2 n

/-- A run token: `E{s:02d}-E{e:02d}` when e > s, else `E{s:02d}` (lines
1197-1200 and 1218-1221). -/
def rangeTok (s e : Nat) : String :=
  if e > s then epTok s ++ "-" ++ epTok e else epTok s

/-- Python `sorted(set(l))` (line 1185): distinct values in ascending order. -/
def sorted_unique (l : List Nat) : List Nat :=
  List.insertionSort (· ≤ ·) l.dedup

/-- The left-to-right loop of lines 1192-1221, carrying the current run
`[s..e]`; on a gap it closes the run and records `range(e+1, n)` as missing
tokens, in source order. -/
def scan_runs (s e : Nat) : List Nat → List String × List String
  | [] => ([rangeTok s e], [])
  | n :: rest =>
    if n = e + 1 then scan_runs s n rest
    else
      let p := scan_runs n n rest
      (rangeTok s e :: p.1, (List.range' (e + 1) (n - (e + 1))).map epTok ++ p.2)

/-- One season's ranges and missing tokens (lines 1185-1221): sort and
deduplicate, then scan; an empty season contributes nothing (line 1187). -/
def season_ranges (nums : List Nat) : List String × List String :=
  match sorted_unique nums with
  | [] => ([], [])
  | n :: rest => scan_runs n n rest

/-- Episode numbers collected for season `s` (lines 1178-1183): only truthy
`episode_num` values are kept, so `None` and `0` are both excluded. -/
def season_episode_nums (eps : List (Nat × Option Nat)) (s : Nat) : List Nat :=
  (eps.filter (fun p => p.1 = s)).filterMap fun p =>
    match p.2 with
    | some n => if n = 0 then none else some n
    | none => none

/-- Result record of _analyze_episode_ranges. -/
structure RangeInfo where
  ranges : List String
  missing : List String
  display : String
deriving DecidableEq

/-- _analyze_episode_ranges (lines 1166-1239) over (season_num, episode_num)
pairs: per sorted season key, compute the season's tokens, add an `S{n} `
marker when more than one season exists, and build the display string. -/
def _analyze_episode_ranges (eps : List (Nat × Option Nat)) : RangeInfo :=
  if eps = [] then ⟨[], [], "无"⟩
  else
    let seasonKeys := sorted_unique (eps.map (·.1))
    let per := seasonKeys.map fun s =>
      let p := season_ranges (season_episode_nums eps s)
      if seasonKeys.length > 1 then
        (p.1.map fun r => "S" ++ toString s ++ " " ++ r,
         p.2.map fun m => "S" ++ toString s ++ " " ++ m)
      else p
    let all_ranges := (per.map (·.1)).flatten
    let all_missing := (per.map (·.2)).flatten
    let display :=
      if all_ranges ≠ [] then
        String.intercalate ", " all_ranges ++
          (if all_missing ≠ [] then
            " (缺: " ++ String.intercalate ", " all_missing ++ ")"
          else "")
      else toString eps.length ++ " 集"
    ⟨all_ranges, all_missing, display⟩

/- Declarative run decomposition, used to state what the scan computes: a run
is a pair (start, tail of consecutive successors). -/

/-- Prepend a value to a run decomposition: it either extends the first run
(when that run starts at n+1) or opens a new singleton run. -/
def split_runs_aux (n : Nat) : List (Nat × List Nat) → List (Nat × List Nat)
  | [] => [(n, [])]
  | (m, g) :: gs => if m = n + 1 then (n, m :: g) :: gs else (n, []) :: (m, g) :: gs

/-- Decompose a list into its maximal runs of consecutive numbers. -/
def split_runs : List Nat → List (Nat × List Nat)
  | [] => []
  | n :: rest => split_runs_aux n (split_runs rest)

/-- Last element of a run. -/
def run_last (r : Nat × List Nat) : Nat := r.2.getLastD r.1

/-- Token of a run. -/
def run_tok (r : Nat × List Nat) : String := rangeTok r.1 (run_last r)

/-- The integers strictly between consecutive runs. -/
def gaps_between : List (Nat × List Nat) → List Nat
  | r1 :: r2 :: rs =>
    List.range' (run_last r1 + 1) (r2.1 - (run_last r1 + 1)) ++ gaps_between (r2 :: rs)
  | _ => []

/-- Head-value of a run list, with a default. -/
def first_run_last (d : Nat) : List (Nat × List Nat) → Nat
  | [] => d
  | r :: _ => run_last r

/-- Tokens of all runs but the first. -/
def tail_toks : List (Nat × List Nat) → List String
  | [] => []
  | _ :: rs => rs.map run_tok

/- Filename parser (_analyze_episodes, lines 1100-1149).  Each regex of the
source is embedded as an anchored matcher `List Char → Option Nat` returning
the int value of its first captured digit group when the pattern matches at
the head of the given suffix, and `re_search` supplies Python re.search's
leftmost-occurrence semantics.  Greedy `\d+` groups that are followed by a
non-digit literal consume exactly the maximal digit run, so the matchers take
the full `takeWhile isDigit` run and then check the literal. -/

/-- Int value of a digit-character group (Python `int(match.group(1))`). -/
def digitsVal (ds : List Char) : Nat :=
  ds.foldl (fun a c => 10 * a + (c.toNat - 48)) 0

/-- Regex `e(\d+)` anchored at the head. -/
def try_e : List Char → Option Nat
  | 'e' :: rest =>
    let ds := rest.takeWhile Char.isDigit
    if ds = [] then none else some (digitsVal ds)
  | _ => none

/-- Regex `ep(\d+)` anchored at the head. -/
def try_ep : List Char → Option Nat
  | 'e' :: 'p' :: rest =>
    let ds := rest.takeWhile Char.isDigit
    if ds = [] then none else some (digitsVal ds)
  | _ => none

/-- Regexes `第(\d+)集` / `第(\d+)话` / `第(\d+)季`, anchored at the head;
the greedy digit group must be followed by the closing marker. -/
def try_cjk (marker : Char) : List Char → Option Nat
  | '第' :: rest =>
    let ds := rest.takeWhile Char.isDigit
    if ds = [] then none
    else
      match rest.dropWhile Char.isDigit with
      | c :: _ => if c = marker then some (digitsVal ds) else none
      | [] => none
  | _ => none

/-- Regexes `(\d+)\.mp4` / `(\d+)\.mkv` anchored at the head: a maximal digit
run followed by the literal extension text. -/
def try_ext (ext : List Char) (l : List Char) : Option Nat :=
  let ds := l.takeWhile Char.isDigit
  if ds = [] then none
  else if ext.isPrefixOf (l.dropWhile Char.isDigit) then some (digitsVal ds) else none

/-- Regex `[^\d](\d{2,3})(?!\d)` anchored at the head: a non-digit, then a
maximal digit run of length exactly 2 or 3 (a longer run fails the trailing
negative lookahead under every greedy backtracking choice). -/
def try_bare : List Char → Option Nat
  | [] => none
  | c :: rest =>
    if c.isDigit then none
    else
      let ds := rest.takeWhile Char.isDigit
      if ds.length = 2 ∨ ds.length = 3 then some (digitsVal ds) else none

/-- Regex `s(\d+)` anchored at the head. -/
def try_s : List Char → Option Nat
  | 's' :: rest =>
    let ds := rest.takeWhile Char.isDigit
    if ds = [] then none else some (digitsVal ds)
  | _ => none

/-- Regex `season(\d+)` anchored at the head. -/
def try_season_word : List Char → Option Nat
  | 's' :: 'e' :: 'a' :: 's' :: 'o' :: 'n' :: rest =>
    let ds := rest.takeWhile Char.isDigit
    if ds = [] then none else some (digitsVal ds)
  | _ => none

/-- Python `re.search`: try the anchored matcher at every position, leftmost
hit wins. -/
def re_search (t : List Char → Option Nat) : List Char → Option Nat
  | [] => t []
  | c :: rest =>
    match t (c :: rest) with
    | some n => some n
    | none => re_search t (rest)

/-- The source's episode pattern cascade, in order (lines 1109-1117). -/
def episode_patterns : List (List Char → Option Nat) :=
  [try_e, try_ep, try_cjk '集', try_cjk '话',
   try_ext ".mp4".data, try_ext ".mkv".data, try_bare]

/-- The season pattern cascade (lines 1128-1132). -/
def season_patterns : List (List Char → Option Nat) :=
  [try_s, try_season_word, try_cjk '季']

/-- First pattern with a hit anywhere wins (the `for pattern ... break` loops
of lines 1119-1124 and 1135-1140). -/
def first_match (pats : List (List Char → Option Nat)) (fn : List Char) : Option Nat :=
  match pats with
  | [] => none
  | t :: ts =>
    match re_search t fn with
    | some n => some n
    | none => first_match ts fn

/-- Episode number of one lowercased stem (lines 1107-1124). -/
def extract_episode (fn : List Char) : Option Nat :=
  first_match episode_patterns fn

/-- Season number of one lowercased stem, default 1 (lines 1128-1140). -/
def extract_season (fn : List Char) : Nat :=
  (first_match season_patterns fn).getD 1

/-- Python `str.lower()` on the code points; ASCII case mapping suffices for
the pattern alphabet (ASCII letters plus caseless CJK characters). -/
def lowerChars (s : String) : List Char := s.data.map Char.toLower

/-- The per-file body of _analyze_episodes: lowercase the stem and run both
extractions. -/
def parse_stem (stem : String) : Nat × Option Nat :=
  let fn := lowerChars stem
  (extract_season fn, extract_episode fn)

/-- Python pathlib `Path(name).stem`: drop the last `.suffix` when the last
dot is neither the first nor the last character.  The dropWhile result, when
nonempty, necessarily starts with the last dot. -/
def stemOf (name : String) : String :=
  let r := name.data.reverse
  let pre := r.takeWhile fun c => c ≠ '.'
  match r.dropWhile (fun c => c ≠ '.') with
  | _ :: base => if pre ≠ [] ∧ base ≠ [] then ⟨base.reverse⟩ else name
  | [] => name

/-- Per-file parse as _analyze_episodes performs it: on the stem of the
file's name (line 1107: `filename = file_path.stem.lower()`). -/
def parse_filename (name : String) : Nat × Option Nat :=
  parse_stem (stemOf name)

/-- The episode cascade as claimed by the specification, without the two
extension patterns: E digits, EP digits, the CJK episode markers, then a bare
2-3 digit number. -/
def episode_patterns_reduced : List (List Char → Option Nat) :=
  [try_e, try_ep, try_cjk '集', try_cjk '话', try_bare]

/-- A pattern has its leftmost hit at some position, with value n. -/
def FoundAt (t : List Char → Option Nat) (l : List Char) (n : Nat) : Prop :=
  ∃ i, t (l.drop i) = some n ∧ ∀ j < i, t (l.drop j) = none

/-- A pattern hits at no position at all. -/
def NoHit (t : List Char → Option Nat) (l : List Char) : Prop :=
  ∀ i, t (l.drop i) = none

/- Folder scanner (_scan_media_folders, lines 1025-1098).  The filesystem is
abstracted as lists: each configured root directory contributes the list of
its immediate child directories, and each child directory carries its name,
its path and the names of all files found in its subtree (the rglob pass).
Presentation data computed per folder (sizes, episode statistics) is omitted:
the verified properties concern only which folders are included. -/

/-- One candidate release folder: filesystem identity (path), display name,
and the file names discovered in its subtree. -/
structure MediaFolder where
  path : String
  name : String
  files : List String
deriving DecidableEq

/-- MediaProcessor.VIDEO_EXTENSIONS (line 135). -/
def VIDEO_EXTENSIONS : List String :=
  [".mkv", ".mp4", ".avi", ".mov", ".wmv", ".flv", ".webm", ".m4v"]

/-- Python pathlib `Path(name).suffix`: the last dot and what follows, when
the last dot is neither the first nor the last character. -/
def suffixOf (name : String) : String :=
  let r := name.data.reverse
  let pre := r.takeWhile fun c => c ≠ '.'
  match r.dropWhile (fun c => c ≠ '.') with
  | _ :: base => if pre ≠ [] ∧ base ≠ [] then ⟨'.' :: pre.reverse⟩ else ""
  | [] => ""

/-- MediaProcessor.is_video_file (lines 137-140):
`file_path.suffix.lower() in VIDEO_EXTENSIONS`. -/
def is_video_file (name : String) : Bool :=
  VIDEO_EXTENSIONS.contains ⟨lowerChars (suffixOf name)⟩

/-- A word character of the tokenizing regex `[\w一-鿿]+` (line
1069), modelled as ASCII alphanumerics, underscore, and the CJK block the
character class names. -/
def isWordChar (c : Char) : Bool :=
  c.isAlphanum || c = '_' || (0x4e00 ≤ c.toNat && c.toNat ≤ 0x9fff)

/-- Python `re.findall(r'[\w一-鿿]+', s)`: the maximal runs of word
characters, left to right. -/
def findall_tokens : List Char → List (List Char)
  | [] => []
  | c :: rest =>
    if isWordChar c then
      (c :: rest.takeWhile isWordChar) :: findall_tokens (rest.dropWhile isWordChar)
    else findall_tokens rest
termination_by l => l.length
decreasing_by
  all_goals simp_wf
  all_goals
    first
    | omega
    | (have hdw : (rest.dropWhile isWordChar).length ≤ rest.length :=
          (List.dropWhile_sublist isWordChar).length_le
       omega)

/-- Python `needle in haystack` for strings: contiguous substring test. -/
def isSubstr (nee : List Char) : List Char → Bool
  | [] => nee.isEmpty
  | c :: t => nee.isPrefixOf (c :: t) || isSubstr nee t

/-- The fuzzy search of lines 1060-1078: direct lowercase substring match, or
any token of the term occurring in the lowercase folder name. -/
def folder_matches (search_term folder_name : String) : Bool :=
  let search_lower := lowerChars search_term
  let folder_lower := lowerChars folder_name
  let direct_match := isSubstr search_lower folder_lower
  let word_match := (findall_tokens search_lower).any fun w => isSubstr w folder_lower
  direct_match || word_match

/-- The per-folder filter of lines 1056-1078: the folder must contain at
least one video file, and, when a search term is given, its name must match. -/
def keep_folder (search_term : String) (f : MediaFolder) : Bool :=
  !(f.files.filter is_video_file).isEmpty &&
    (search_term.data.isEmpty || folder_matches search_term f.name)

/-- The scanning loop of lines 1038-1094: walk the candidate folders in
order, skip the ones already processed, and keep the ones passing the
filter. -/
def scan_items (search_term : String) (processed : List MediaFolder) :
    List MediaFolder → List MediaFolder
  | [] => []
  | f :: rest =>
    if f ∈ processed then scan_items search_term processed rest
    else
      let tailres := scan_items search_term (f :: processed) rest
      if keep_folder search_term f then f :: tailres else tailres

/-- Case-insensitive name order used by the final sort (line 1097). -/
def name_le (a b : MediaFolder) : Prop :=
  (⟨lowerChars a.name⟩ : String) ≤ ⟨lowerChars b.name⟩

instance name_le_dec : DecidableRel name_le := fun a b =>
  inferInstanceAs (Decidable ((⟨lowerChars a.name⟩ : String) ≤ ⟨lowerChars b.name⟩))

/-- _scan_media_folders (lines 1025-1098): concatenate the children of all
roots, scan them, sort by lowercased name. -/
def _scan_media_folders (roots : List (List MediaFolder)) (search_term : String) :
    List MediaFolder :=
  List.insertionSort name_le (scan_items search_term [] roots.flatten)

/-- C1: with auto-optimization on, the chunk-size tier table has
upper-exclusive boundaries: below 50 MiB gives 256 KiB, below 500 MiB gives
1 MiB, below 1 GiB gives 2 MiB, below 4 GiB gives 4 MiB, below 16 GiB gives
8 MiB, below 64 GiB gives 16 MiB, and at or above 64 GiB gives 8 MiB; in
particular 49 MiB maps to 256 KiB, 50 MiB to 1 MiB, 4095 MiB to 4 MiB,
4096 MiB to 8 MiB and 70 GiB to 8 MiB. -/
theorem C1_chunk_tier_table :
    (∀ cfg : Config, cfg.auto_optimize = true → ∀ s : Nat,
      (s < 50 * 1024 * 1024 → _get_optimal_piece_size cfg s = 256 * 1024) ∧
      (50 * 1024 * 1024 ≤ s → s < 500 * 1024 * 1024 →
        _get_optimal_piece_size cfg s = 1024 * 1024) ∧
      (500 * 1024 * 1024 ≤ s → s < 1024 * 1024 * 1024 →
        _get_optimal_piece_size cfg s = 2 * 1024 * 1024) ∧
      (1024 * 1024 * 1024 ≤ s → s < 4 * 1024 * 1024 * 1024 →
        _get_optimal_piece_size cfg s = 4 * 1024 * 1024) ∧
      (4 * 1024 * 1024 * 1024 ≤ s → s < 16 * 1024 * 1024 * 1024 →
        _get_optimal_piece_size cfg s = 8 * 1024 * 1024) ∧
      (16 * 1024 * 1024 * 1024 ≤ s → s < 64 * 1024 * 1024 * 1024 →
        _get_optimal_piece_size cfg s = 16 * 1024 * 1024) ∧
      (64 * 1024 * 1024 * 1024 ≤ s →
        _get_optimal_piece_size cfg s = 8 * 1024 * 1024)) ∧
    _get_optimal_piece_size ⟨true, none, none⟩ (49 * 1024 * 1024) = 256 * 1024 ∧
    _get_optimal_piece_size ⟨true, none, none⟩ (50 * 1024 * 1024) = 1024 * 1024 ∧
    _get_optimal_piece_size ⟨true, none, none⟩ (4095 * 1024 * 1024) = 4 * 1024 * 1024 ∧
    _get_optimal_piece_size ⟨true, none, none⟩ (4096 * 1024 * 1024) = 8 * 1024 * 1024 ∧
    _get_optimal_piece_size ⟨true, none, none⟩ (70 * 1024 * 1024 * 1024) = 8 * 1024 * 1024 := by
  refine ⟨?_, by decide, by decide, by decide, by decide, by decide⟩
  intro cfg h s
  unfold _get_optimal_piece_size
  rw [h]
  refine ⟨?_, ?_, ?_, ?_, ?_, ?_, ?_⟩ <;> intros <;> simp only [Bool.true_eq_false,
    if_false] <;> split_ifs <;> omega

/-- Witness for C1 at concrete sizes in each tier. -/
theorem C1_chunk_tier_table_witness :
    _get_optimal_piece_size ⟨true, none, none⟩ 0 = 256 * 1024 ∧
    _get_optimal_piece_size ⟨true, none, none⟩ (60 * 1024 * 1024) = 1024 * 1024 ∧
    _get_optimal_piece_size ⟨true, none, none⟩ (600 * 1024 * 1024) = 2 * 1024 * 1024 ∧
    _get_optimal_piece_size ⟨true, none, none⟩ (2 * 1024 * 1024 * 1024) = 4 * 1024 * 1024 ∧
    _get_optimal_piece_size ⟨true, none, none⟩ (5 * 1024 * 1024 * 1024) = 8 * 1024 * 1024 ∧
    _get_optimal_piece_size ⟨true, none, none⟩ (20 * 1024 * 1024 * 1024) = 16 * 1024 * 1024 ∧
    _get_optimal_piece_size ⟨true, none, none⟩ (64 * 1024 * 1024 * 1024) = 8 * 1024 * 1024 :=
  ⟨(C1_chunk_tier_table.1 ⟨true, none, none⟩ rfl 0).1 (by norm_num),
   ((C1_chunk_tier_table.1 ⟨true, none, none⟩ rfl _).2.1 (by norm_num) (by norm_num)),
   ((C1_chunk_tier_table.1 ⟨true, none, none⟩ rfl _).2.2.1 (by norm_num) (by norm_num)),
   ((C1_chunk_tier_table.1 ⟨true, none, none⟩ rfl _).2.2.2.1 (by norm_num) (by norm_num)),
   ((C1_chunk_tier_table.1 ⟨true, none, none⟩ rfl _).2.2.2.2.1 (by norm_num) (by norm_num)),
   ((C1_chunk_tier_table.1 ⟨true, none, none⟩ rfl _).2.2.2.2.2.1 (by norm_num) (by norm_num)),
   ((C1_chunk_tier_table.1 ⟨true, none, none⟩ rfl _).2.2.2.2.2.2 (by norm_num))⟩

/-- C2 as stated is false: with auto-optimization disabled the caller-supplied
worker override is returned verbatim, so an override of 25 puts 25 in the plan,
outside [1, 20]. -/
theorem C2_workers_counterexample :
    _get_optimal_workers ⟨false, none, some 25⟩ ⟨4, 4, 0, 0, 0⟩ = 25 ∧
    ¬ _get_optimal_workers ⟨false, none, some 25⟩ ⟨4, 4, 0, 0, 0⟩ ≤ 20 := by
  constructor
  · rfl
  · decide

/-- C2 amended: with auto-optimization enabled the computed worker count lies
in [1, 20] for every combination of core counts, cpu utilization, load average
and memory; with auto-optimization disabled the caller value is used verbatim
(1 when unset or 0) and is not clamped. -/
theorem C2_workers_range_auto :
    ∀ cfg : Config, cfg.auto_optimize = true → ∀ prof : ResourceProfile,
      1 ≤ _get_optimal_workers cfg prof ∧ _get_optimal_workers cfg prof ≤ 20 := by
  intro cfg h prof
  have hbase : 3 ≤ base_workers prof.physical_cores := by
    unfold base_workers; split_ifs <;> omega
  have hadj : 2 ≤ cpu_load_adjust prof.physical_cores (base_workers prof.physical_cores)
      prof.cpu_percent prof.load_avg := by
    unfold cpu_load_adjust; split_ifs <;> omega
  have hmem : 2 ≤ memory_adjust prof.mem_total
      (cpu_load_adjust prof.physical_cores (base_workers prof.physical_cores)
        prof.cpu_percent prof.load_avg) := by
    unfold memory_adjust; split_ifs <;> omega
  unfold _get_optimal_workers
  rw [h]
  simp only [Bool.true_eq_false, if_false]
  omega

/-- Witness for C2 at a concrete 8-core, idle, low-memory profile. -/
theorem C2_workers_range_auto_witness :
    1 ≤ _get_optimal_workers ⟨true, none, none⟩ ⟨8, 8, 0, 0, 0⟩ ∧
    _get_optimal_workers ⟨true, none, none⟩ ⟨8, 8, 0, 0, 0⟩ ≤ 20 :=
  C2_workers_range_auto ⟨true, none, none⟩ rfl ⟨8, 8, 0, 0, 0⟩

/-- C4 as stated is false: when cpu utilization is below 50 the code computes
`min(w + 2, 16)`, not `w + 2`; at 32 physical cores the tier base is 16 and
the adjusted value stays 16 instead of 18. -/
theorem C4_adjust_counterexample :
    cpu_load_adjust 32 (base_workers 32) 0 0 = 16 ∧
    base_workers 32 + 2 = 18 ∧ (0 : ℚ) < 50 := by
  refine ⟨?_, by decide, by norm_num⟩
  have : base_workers 32 = 16 := by decide
  unfold cpu_load_adjust
  rw [this, if_pos (by norm_num)]
  omega

/-- C4 amended: after the core-count tier, if cpu utilization is below 50 the
result is the base plus 2 capped at 16 (regardless of load); otherwise, if
utilization exceeds 80 or load exceeds 0.8 times the physical cores, the
result is the base halved with a floor of 2; otherwise the base is unchanged.
The two adjustments never both apply and the utilization test comes first. -/
theorem C4_adjust_amended :
    ∀ (c w : Nat) (cpu load : ℚ),
      (cpu < 50 → cpu_load_adjust c w cpu load = min (w + 2) 16) ∧
      (¬ cpu < 50 → cpu > 80 ∨ load > (c : ℚ) * (4 / 5) →
        cpu_load_adjust c w cpu load = max 2 (w / 2)) ∧
      (¬ cpu < 50 → ¬ (cpu > 80 ∨ load > (c : ℚ) * (4 / 5)) →
        cpu_load_adjust c w cpu load = w) := by
  intro c w cpu load
  refine ⟨fun h => ?_, fun h h2 => ?_, fun h h2 => ?_⟩
  · unfold cpu_load_adjust; rw [if_pos h]
  · unfold cpu_load_adjust; rw [if_neg h, if_pos h2]
  · unfold cpu_load_adjust; rw [if_neg h, if_neg h2]

/-- Witness for C4 amended: a 4-core box at 90% utilization halves 5 to 2. -/
theorem C4_adjust_amended_witness :
    cpu_load_adjust 4 5 90 0 = max 2 (5 / 2) :=
  (C4_adjust_amended 4 5 90 0).2.1 (by norm_num) (Or.inl (by norm_num))

theorem split_runs_aux_shape (n : Nat) (l : List (Nat × List Nat)) :
    ∃ g gs, split_runs_aux n l = (n, g) :: gs := by
  match l with
  | [] => exact ⟨[], [], rfl⟩
  | (m, g') :: gs' =>
    by_cases h : m = n + 1
    · exact ⟨m :: g', gs', by simp [split_runs_aux, h]⟩
    · exact ⟨[], (m, g') :: gs', by simp [split_runs_aux, h]⟩

theorem run_last_extend (a x : Nat) (g : List Nat) :
    run_last (a, x :: g) = run_last (x, g) := by
  show (x :: g).getLastD a = g.getLastD x
  exact List.getLastD_cons a x g

theorem gaps_between_extend (a x : Nat) (g : List Nat) (gs : List (Nat × List Nat)) :
    gaps_between ((a, x :: g) :: gs) = gaps_between ((x, g) :: gs) := by
  match gs with
  | [] => rfl
  | r2 :: rs => simp [gaps_between, run_last_extend]

/-- The scan loop computes exactly the tokens and gaps of the run
decomposition of `e :: rest`, with the first run's start replaced by the
carried start `s`. -/
theorem scan_runs_eq (rest : List Nat) : ∀ s e : Nat,
    scan_runs s e rest =
      (rangeTok s (first_run_last e (split_runs (e :: rest))) ::
         tail_toks (split_runs (e :: rest)),
       (gaps_between (split_runs (e :: rest))).map epTok) := by
  induction rest with
  | nil =>
    intro s e
    simp [scan_runs, split_runs, split_runs_aux, first_run_last, tail_toks,
      gaps_between, run_last]
  | cons n rest' ih =>
    intro s e
    obtain ⟨g, gs, hsp⟩ := split_runs_aux_shape n (split_runs rest')
    have hsp' : split_runs (n :: rest') = (n, g) :: gs := by
      simpa [split_runs] using hsp
    by_cases hne : n = e + 1
    · rw [show scan_runs s e (n :: rest') = scan_runs s n rest' by
        simp [scan_runs, hne]]
      rw [ih s n]
      have hsp2 : split_runs (e :: n :: rest') = (e, n :: g) :: gs := by
        simp only [split_runs] at hsp' ⊢
        rw [hsp']
        simp [split_runs_aux, hne]
      rw [hsp', hsp2]
      have h1 : first_run_last n ((n, g) :: gs) = first_run_last e ((e, n :: g) :: gs) := by
        simp [first_run_last, run_last_extend]
      have h2 : tail_toks ((n, g) :: gs) = tail_toks ((e, n :: g) :: gs) := by
        simp [tail_toks]
      rw [h1, h2, gaps_between_extend]
    · rw [show scan_runs s e (n :: rest') =
        (rangeTok s e :: (scan_runs n n rest').1,
         (List.range' (e + 1) (n - (e + 1))).map epTok ++ (scan_runs n n rest').2) by
        simp [scan_runs, hne]]
      rw [ih n n]
      have hsp2 : split_runs (e :: n :: rest') = (e, []) :: (n, g) :: gs := by
        simp only [split_runs] at hsp' ⊢
        rw [hsp']
        simp [split_runs_aux, hne]
      rw [hsp', hsp2]
      simp [first_run_last, tail_toks, run_tok, run_last, gaps_between, List.map_append]

theorem season_ranges_eq_toks (nums : List Nat) :
    (season_ranges nums).1 = (split_runs (sorted_unique nums)).map run_tok := by
  rcases h : sorted_unique nums with _ | ⟨n, rest⟩
  · simp [season_ranges, h, split_runs]
  · obtain ⟨g, gs, hsp⟩ := split_runs_aux_shape n (split_runs rest)
    have hsp' : split_runs (n :: rest) = (n, g) :: gs := by
      simpa [split_runs] using hsp
    simp only [season_ranges, h]
    rw [scan_runs_eq rest n n, hsp']
    simp [first_run_last, tail_toks, run_tok]

theorem season_ranges_eq_gaps (nums : List Nat) :
    (season_ranges nums).2 = (gaps_between (split_runs (sorted_unique nums))).map epTok := by
  rcases h : sorted_unique nums with _ | ⟨n, rest⟩
  · simp [season_ranges, h, split_runs, gaps_between]
  · simp only [season_ranges, h]
    rw [scan_runs_eq rest n n]

/-- Every value inside a run of the decomposition is a member of the input. -/
theorem split_runs_mem (l : List Nat) :
    ∀ r ∈ split_runs l, ∀ x ∈ r.1 :: r.2, x ∈ l := by
  induction l with
  | nil => simp [split_runs]
  | cons n rest ih =>
    intro r hr x hx
    rcases hs : split_runs rest with _ | ⟨⟨m, g⟩, gs⟩
    · rw [show split_runs (n :: rest) = [(n, [])] by simp [split_runs, hs, split_runs_aux]] at hr
      simp at hr
      subst hr
      simp at hx
      simp [hx]
    · by_cases hm : m = n + 1
      · rw [show split_runs (n :: rest) = (n, m :: g) :: gs by
          simp [split_runs, hs, split_runs_aux, hm]] at hr
        rcases List.mem_cons.1 hr with h1 | h1
        · subst h1
          rcases List.mem_cons.1 hx with h2 | h2
          · simp [h2]
          · have := ih (m, g) (hs ▸ List.mem_cons_self _ _) x h2
            exact List.mem_cons_of_mem n this
        · have := ih r (hs ▸ List.mem_cons_of_mem _ h1) x hx
          exact List.mem_cons_of_mem n this
      · rw [show split_runs (n :: rest) = (n, []) :: (m, g) :: gs by
          simp [split_runs, hs, split_runs_aux, hm]] at hr
        rcases List.mem_cons.1 hr with h1 | h1
        · subst h1
          simp at hx
          simp [hx]
        · have := ih r (hs ▸ h1) x hx
          exact List.mem_cons_of_mem n this

/-- Every run of the decomposition is a block of consecutive numbers. -/
theorem split_runs_consecutive (l : List Nat) :
    ∀ r ∈ split_runs l, r.1 :: r.2 = List.range' r.1 (r.2.length + 1) := by
  induction l with
  | nil => simp [split_runs]
  | cons n rest ih =>
    intro r hr
    rcases hs : split_runs rest with _ | ⟨⟨m, g⟩, gs⟩
    · rw [show split_runs (n :: rest) = [(n, [])] by simp [split_runs, hs, split_runs_aux]] at hr
      simp at hr
      subst hr
      simp
    · by_cases hm : m = n + 1
      · rw [show split_runs (n :: rest) = (n, m :: g) :: gs by
          simp [split_runs, hs, split_runs_aux, hm]] at hr
        rcases List.mem_cons.1 hr with h1 | h1
        · subst h1
          have hmg := ih (m, g) (hs ▸ List.mem_cons_self _ _)
          simp only at hmg
          show n :: m :: g = List.range' n (g.length + 1 + 1)
          rw [List.range'_succ]
          rw [show n + 1 = m from hm.symm]
          rw [← hmg]
        · exact ih r (hs ▸ List.mem_cons_of_mem _ h1)
      · rw [show split_runs (n :: rest) = (n, []) :: (m, g) :: gs by
          simp [split_runs, hs, split_runs_aux, hm]] at hr
        rcases List.mem_cons.1 hr with h1 | h1
        · subst h1
          simp
        · exact ih r (hs ▸ h1)

/-- The run blocks, in order, flatten back to the input list. -/
theorem split_runs_flatten (l : List Nat) :
    ((split_runs l).map fun r => r.1 :: r.2).flatten = l := by
  induction l with
  | nil => simp [split_runs]
  | cons n rest ih =>
    rcases hs : split_runs rest with _ | ⟨⟨m, g⟩, gs⟩
    · rw [hs] at ih
      simp at ih
      rw [show split_runs (n :: rest) = [(n, [])] by simp [split_runs, hs, split_runs_aux]]
      simp [← ih]
    · rw [hs] at ih
      by_cases hm : m = n + 1
      · rw [show split_runs (n :: rest) = (n, m :: g) :: gs by
          simp [split_runs, hs, split_runs_aux, hm]]
        simp only [List.map_cons, List.flatten_cons] at ih ⊢
        rw [← ih]
        simp
      · rw [show split_runs (n :: rest) = (n, []) :: (m, g) :: gs by
          simp [split_runs, hs, split_runs_aux, hm]]
        simp only [List.map_cons, List.flatten_cons] at ih ⊢
        rw [← ih]
        simp

/-- Every gap value lies strictly between the last value of some run and the
first value of another. -/
theorem gaps_between_bounds (runs : List (Nat × List Nat)) :
    ∀ n ∈ gaps_between runs,
      (∃ r1 ∈ runs, run_last r1 < n) ∧ ∃ r2 ∈ runs, n < r2.1 := by
  match runs with
  | [] => simp [gaps_between]
  | [r] => simp [gaps_between]
  | r1 :: r2 :: rs =>
    intro n hn
    rw [show gaps_between (r1 :: r2 :: rs) =
      List.range' (run_last r1 + 1) (r2.1 - (run_last r1 + 1)) ++ gaps_between (r2 :: rs)
      from rfl] at hn
    rcases List.mem_append.1 hn with h | h
    · obtain ⟨i, hi, hni⟩ := List.mem_range'.1 h
      constructor
      · exact ⟨r1, List.mem_cons_self _ _, by omega⟩
      · exact ⟨r2, List.mem_cons_of_mem _ (List.mem_cons_self _ _), by omega⟩
    · obtain ⟨⟨a, ha, ha2⟩, ⟨b, hb, hb2⟩⟩ := gaps_between_bounds (r2 :: rs) n h
      exact ⟨⟨a, List.mem_cons_of_mem _ ha, ha2⟩, ⟨b, List.mem_cons_of_mem _ hb, hb2⟩⟩

theorem mem_sorted_unique (l : List Nat) (x : Nat) :
    x ∈ sorted_unique l ↔ x ∈ l := by
  unfold sorted_unique
  rw [(List.perm_insertionSort (· ≤ ·) l.dedup).mem_iff, List.mem_dedup]

/-- The last value of a run is one of its values. -/
theorem run_last_mem (r : Nat × List Nat) : run_last r ∈ r.1 :: r.2 :=
  List.getLastD_mem_cons r.2 r.1

/-- C3: on the single-season episode list [1,2,3,5,7,8] the analyzer returns
exactly ranges [E01-E03, E05, E07-E08] and missing [E04, E06]; and for every
input list the emitted range tokens are exactly the tokens of the maximal
consecutive runs of the sorted distinct values (each run is a consecutive
block and the blocks flatten back to the sorted distinct values), while the
missing tokens are exactly the integers strictly between consecutive runs. -/
theorem C3_episode_ranges :
    (_analyze_episode_ranges [(1, some 1), (1, some 2), (1, some 3), (1, some 5),
        (1, some 7), (1, some 8)]).ranges = ["E01-E03", "E05", "E07-E08"] ∧
    (_analyze_episode_ranges [(1, some 1), (1, some 2), (1, some 3), (1, some 5),
        (1, some 7), (1, some 8)]).missing = ["E04", "E06"] ∧
    ∀ nums : List Nat,
      (season_ranges nums).1 = (split_runs (sorted_unique nums)).map run_tok ∧
      (season_ranges nums).2 = (gaps_between (split_runs (sorted_unique nums))).map epTok ∧
      (∀ r ∈ split_runs (sorted_unique nums), r.1 :: r.2 = List.range' r.1 (r.2.length + 1)) ∧
      ((split_runs (sorted_unique nums)).map fun r => r.1 :: r.2).flatten = sorted_unique nums :=
  ⟨by rfl, by rfl, fun nums => ⟨season_ranges_eq_toks nums, season_ranges_eq_gaps nums,
    split_runs_consecutive _, split_runs_flatten _⟩⟩

/-- Witness for C3 at the concrete input [2,4]. -/
theorem C3_episode_ranges_witness :
    (2, ([] : List Nat)).1 :: (2, ([] : List Nat)).2 =
      List.range' (2, ([] : List Nat)).1 ((2, ([] : List Nat)).2.length + 1) ∧
    (season_ranges [2, 4]).1 = (split_runs (sorted_unique [2, 4])).map run_tok :=
  ⟨(C3_episode_ranges.2.2 [2, 4]).2.2.1 (2, []) (by decide),
   (C3_episode_ranges.2.2 [2, 4]).1⟩

/-- C8: every missing token of a season denotes a number strictly between two
observed episode numbers of that season, i.e. strictly between the observed
minimum and maximum; nothing below the first or above the last observed
episode is ever reported missing. -/
theorem C8_missing_within_span :
    ∀ nums : List Nat,
      (season_ranges nums).2 = (gaps_between (split_runs (sorted_unique nums))).map epTok ∧
      ∀ n ∈ gaps_between (split_runs (sorted_unique nums)),
        (∃ a ∈ nums, a < n) ∧ ∃ b ∈ nums, n < b := by
  intro nums
  refine ⟨season_ranges_eq_gaps nums, fun n hn => ?_⟩
  obtain ⟨⟨r1, hr1, hlt⟩, ⟨r2, hr2, hgt⟩⟩ := gaps_between_bounds _ n hn
  constructor
  · exact ⟨run_last r1,
      (mem_sorted_unique _ _).1 (split_runs_mem _ r1 hr1 _ (run_last_mem r1)), hlt⟩
  · exact ⟨r2.1,
      (mem_sorted_unique _ _).1 (split_runs_mem _ r2 hr2 _ (List.mem_cons_self _ _)), hgt⟩

/-- Witness for C8 at the concrete input [1,3] with gap value 2. -/
theorem C8_missing_within_span_witness :
    (season_ranges [1, 3]).2 = (gaps_between (split_runs (sorted_unique [1, 3]))).map epTok ∧
    (∃ a ∈ [1, 3], a < 2) ∧ ∃ b ∈ [1, 3], 2 < b :=
  ⟨(C8_missing_within_span [1, 3]).1, (C8_missing_within_span [1, 3]).2 2 (by decide)⟩

theorem re_search_eq_some_iff (t : List Char → Option Nat) (l : List Char) (n : Nat) :
    re_search t l = some n ↔ FoundAt t l n := by
  induction l with
  | nil =>
    constructor
    · intro h; exact ⟨0, h, by omega⟩
    · rintro ⟨i, hi, -⟩
      simpa [List.drop_nil] using hi
  | cons c rest ih =>
    cases h : t (c :: rest) with
    | some m =>
      rw [show re_search t (c :: rest) = some m by simp [re_search, h]]
      constructor
      · rintro hmn
        exact ⟨0, by simpa using h.trans hmn, by omega⟩
      · rintro ⟨i, hi, hj⟩
        rcases Nat.eq_zero_or_pos i with rfl | hpos
        · simpa [h] using hi
        · have := hj 0 hpos
          simp [h] at this
    | none =>
      rw [show re_search t (c :: rest) = re_search t rest by simp [re_search, h]]
      rw [ih]
      constructor
      · rintro ⟨i, hi, hj⟩
        refine ⟨i + 1, by simpa using hi, fun j hji => ?_⟩
        match j with
        | 0 => simpa using h
        | k + 1 => simpa using hj k (by omega)
      · rintro ⟨i, hi, hj⟩
        match i with
        | 0 => simp [h] at hi
        | k + 1 =>
          refine ⟨k, by simpa using hi, fun j hji => ?_⟩
          simpa using hj (j + 1) (by omega)

theorem re_search_eq_none_iff (t : List Char → Option Nat) (l : List Char) :
    re_search t l = none ↔ NoHit t l := by
  induction l with
  | nil =>
    constructor
    · intro h i; simpa [List.drop_nil] using h
    · intro h; simpa using h 0
  | cons c rest ih =>
    cases h : t (c :: rest) with
    | some m =>
      rw [show re_search t (c :: rest) = some m by simp [re_search, h]]
      constructor
      · intro hc; cases hc
      · intro hall
        have := hall 0
        simp [h] at this
    | none =>
      rw [show re_search t (c :: rest) = re_search t rest by simp [re_search, h]]
      rw [ih]
      constructor
      · intro hall j
        match j with
        | 0 => simpa using h
        | k + 1 => simpa using hall k
      · intro hall i
        simpa using hall (i + 1)

theorem first_match_cons_some (t : List Char → Option Nat)
    (ts : List (List Char → Option Nat)) (fn : List Char) (n : Nat) :
    first_match (t :: ts) fn = some n ↔
      FoundAt t fn n ∨ (NoHit t fn ∧ first_match ts fn = some n) := by
  have hFound : ∀ k, FoundAt t fn k ↔ re_search t fn = some k :=
    fun k => (re_search_eq_some_iff t fn k).symm
  have hNo : NoHit t fn ↔ re_search t fn = none := (re_search_eq_none_iff t fn).symm
  cases h : re_search t fn <;> simp [first_match, h, hFound, hNo]

theorem first_match_cons_none (t : List Char → Option Nat)
    (ts : List (List Char → Option Nat)) (fn : List Char) :
    first_match (t :: ts) fn = none ↔ NoHit t fn ∧ first_match ts fn = none := by
  have hNo : NoHit t fn ↔ re_search t fn = none := (re_search_eq_none_iff t fn).symm
  cases h : re_search t fn <;> simp [first_match, h, hNo]

/-- C5 as stated is false: the filename `s0e00` parses to season 0 (the
explicit S0 marker) and episode 0 (the E00 marker), so season_num is not
always ≥ 1 and episode_num, when present, is not always positive. -/
theorem C5_zero_counterexample :
    parse_stem "s0e00" = (0, some 0) ∧ ¬ 1 ≤ (parse_stem "s0e00").1 ∧ ¬ 0 < 0 := by
  refine ⟨by decide, by decide, by omega⟩

/-- C5 amended: season_num defaults to 1 (hence is ≥ 1) whenever no season
pattern matches anywhere in the name, and a parsed season of 0 can only come
from an explicit season marker whose digits are 0; episode_num, when present,
is a nonnegative integer that is 0 exactly when a matched pattern captured a
zero digit group. -/
theorem C5_season_default :
    ∀ stem : String,
      (NoHit try_s (lowerChars stem) → NoHit try_season_word (lowerChars stem) →
        NoHit (try_cjk '季') (lowerChars stem) → (parse_stem stem).1 = 1) ∧
      ((parse_stem stem).1 = 0 →
        first_match season_patterns (lowerChars stem) = some 0) := by
  intro stem
  constructor
  · intro h1 h2 h3
    have hm : first_match season_patterns (lowerChars stem) = none := by
      rw [show season_patterns = [try_s, try_season_word, try_cjk '季'] from rfl]
      rw [first_match_cons_none, first_match_cons_none, first_match_cons_none]
      exact ⟨h1, h2, h3, rfl⟩
    simp [parse_stem, extract_season, hm]
  · intro h0
    rcases hm : first_match season_patterns (lowerChars stem) with _ | k
    · simp [parse_stem, extract_season, hm] at h0
    · simp only [parse_stem, extract_season, hm, Option.getD_some] at h0
      rw [h0]

/-- Witness for C5: `abc` has no season marker and parses to season 1; `s0`
parses to season 0 via an explicit zero marker. -/
theorem C5_season_default_witness :
    (parse_stem "abc").1 = 1 ∧ first_match season_patterns (lowerChars "s0") = some 0 :=
  ⟨(C5_season_default "abc").1 ((re_search_eq_none_iff _ _).mp (by decide))
      ((re_search_eq_none_iff _ _).mp (by decide)) ((re_search_eq_none_iff _ _).mp (by decide)),
   (C5_season_default "s0").2 (by decide)⟩

/-- C7 as stated is false: the cascade also contains the extension patterns
`(\d+)\.mp4` and `(\d+)\.mkv`, and on the stem `7.mp4` (file `7.mp4.mkv`)
the code extracts episode 7 while the claimed four-pattern cascade finds no
match. -/
theorem C7_cascade_counterexample :
    parse_stem "7.mp4" = (1, some 7) ∧
    first_match episode_patterns_reduced (lowerChars "7.mp4") = none := by
  refine ⟨by decide, by decide⟩

/-- C7 amended: episode extraction tries, in order, `e(\d+)`, `ep(\d+)`, the
CJK markers `第(\d+)集` and `第(\d+)话`, the extension patterns `(\d+)\.mp4`
and `(\d+)\.mkv`, then the bare 2-3 digit fallback, stopping at the first
pattern with a (leftmost) hit and taking its captured group; if none match
the episode is none.  Season extraction is an independent first-match-wins
cascade over `s(\d+)`, `season(\d+)`, `第(\d+)季`, with default 1.  All
functions are total, so no failure is possible on unparseable names. -/
theorem C7_episode_cascade :
    ∀ (fn : List Char) (n : Nat),
      (extract_episode fn = some n ↔
        FoundAt try_e fn n ∨ (NoHit try_e fn ∧
        (FoundAt try_ep fn n ∨ (NoHit try_ep fn ∧
        (FoundAt (try_cjk '集') fn n ∨ (NoHit (try_cjk '集') fn ∧
        (FoundAt (try_cjk '话') fn n ∨ (NoHit (try_cjk '话') fn ∧
        (FoundAt (try_ext ".mp4".data) fn n ∨ (NoHit (try_ext ".mp4".data) fn ∧
        (FoundAt (try_ext ".mkv".data) fn n ∨ (NoHit (try_ext ".mkv".data) fn ∧
        FoundAt try_bare fn n)))))))))))) ∧
      (extract_episode fn = none ↔
        NoHit try_e fn ∧ NoHit try_ep fn ∧ NoHit (try_cjk '集') fn ∧
        NoHit (try_cjk '话') fn ∧ NoHit (try_ext ".mp4".data) fn ∧
        NoHit (try_ext ".mkv".data) fn ∧ NoHit try_bare fn) ∧
      (∀ k, first_match season_patterns fn = some k ↔
        FoundAt try_s fn k ∨ (NoHit try_s fn ∧
        (FoundAt try_season_word fn k ∨ (NoHit try_season_word fn ∧
        FoundAt (try_cjk '季') fn k)))) ∧
      (NoHit try_s fn → NoHit try_season_word fn → NoHit (try_cjk '季') fn →
        extract_season fn = 1) := by
  intro fn n
  refine ⟨?_, ?_, ?_, ?_⟩
  · show first_match episode_patterns fn = some n ↔ _
    rw [show episode_patterns = [try_e, try_ep, try_cjk '集', try_cjk '话',
      try_ext ".mp4".data, try_ext ".mkv".data, try_bare] from rfl]
    simp only [first_match_cons_some]
    simp [first_match]
  · show first_match episode_patterns fn = none ↔ _
    rw [show episode_patterns = [try_e, try_ep, try_cjk '集', try_cjk '话',
      try_ext ".mp4".data, try_ext ".mkv".data, try_bare] from rfl]
    simp only [first_match_cons_none]
    simp [first_match]
  · intro k
    rw [show season_patterns = [try_s, try_season_word, try_cjk '季'] from rfl]
    simp only [first_match_cons_some]
    simp [first_match]
  · intro h1 h2 h3
    have hm : first_match season_patterns fn = none := by
      rw [show season_patterns = [try_s, try_season_word, try_cjk '季'] from rfl]
      rw [first_match_cons_none, first_match_cons_none, first_match_cons_none]
      exact ⟨h1, h2, h3, rfl⟩
    simp [extract_season, hm]

/-- Witness for C7: `e07` parses to episode 7 by the first pattern and to the
default season 1. -/
theorem C7_episode_cascade_witness :
    extract_episode "e07".data = some 7 ∧ extract_season "e07".data = 1 :=
  ⟨(C7_episode_cascade "e07".data 7).1.mpr
      (Or.inl ⟨0, by decide, fun j hj => absurd hj (Nat.not_lt_zero j)⟩),
   (C7_episode_cascade "e07".data 7).2.2.2 ((re_search_eq_none_iff _ _).mp (by decide))
      ((re_search_eq_none_iff _ _).mp (by decide)) ((re_search_eq_none_iff _ _).mp (by decide))⟩

/-- C10 as stated is false: parsing does operate on the stem, but a stem can
itself contain `.mp4`/`.mkv` (double extensions), where the extension
patterns do match: file `9.mkv.mp4` has stem `9.mkv`, the code parses
episode 9 via `(\d+)\.mkv`, while the cascade without the two extension
patterns finds no episode. -/
theorem C10_reduced_counterexample :
    stemOf "9.mkv.mp4" = "9.mkv" ∧
    (parse_filename "9.mkv.mp4").2 = some 9 ∧
    first_match episode_patterns_reduced (lowerChars (stemOf "9.mkv.mp4")) = none := by
  refine ⟨by decide, by decide, by decide⟩

theorem first_match_skip (t : List Char → Option Nat)
    (ts : List (List Char → Option Nat)) (fn : List Char)
    (h : re_search t fn = none) :
    first_match (t :: ts) fn = first_match ts fn := by
  simp [first_match, h]

/-- C10 amended: episode and season parsing operate on the stem, so the
parsed numbers depend only on the stem and replacing one extension by
another never changes them; the two extension-specific patterns can match
only when the stem itself contains a digit run followed by `.mp4`/`.mkv`,
and whenever they have no hit the full cascade agrees with the cascade with
those two patterns removed. -/
theorem C10_reduced_equiv :
    (∀ name : String, parse_filename name = parse_stem (stemOf name)) ∧
    (∀ fn : List Char, NoHit (try_ext ".mp4".data) fn → NoHit (try_ext ".mkv".data) fn →
      extract_episode fn = first_match episode_patterns_reduced fn) ∧
    (∀ b e1 e2 : String, b.data ≠ [] → e1.data ≠ [] → e2.data ≠ [] →
      '.' ∉ e1.data → '.' ∉ e2.data →
      parse_filename ⟨b.data ++ '.' :: e1.data⟩ = parse_filename ⟨b.data ++ '.' :: e2.data⟩) := by
  refine ⟨fun name => rfl, ?_, ?_⟩
  · intro fn h4 h5
    have hm4 : re_search (try_ext ".mp4".data) fn = none := (re_search_eq_none_iff _ _).mpr h4
    have hm5 : re_search (try_ext ".mkv".data) fn = none := (re_search_eq_none_iff _ _).mpr h5
    show first_match episode_patterns fn = first_match episode_patterns_reduced fn
    rw [show episode_patterns = [try_e, try_ep, try_cjk '集', try_cjk '话',
      try_ext ".mp4".data, try_ext ".mkv".data, try_bare] from rfl,
      show episode_patterns_reduced = [try_e, try_ep, try_cjk '集', try_cjk '话',
      try_bare] from rfl]
    cases h1 : re_search try_e fn with
    | some m => simp [first_match, h1]
    | none =>
      cases h2 : re_search try_ep fn with
      | some m => simp [first_match, h1, h2]
      | none =>
        cases h3 : re_search (try_cjk '集') fn with
        | some m => simp [first_match, h1, h2, h3]
        | none =>
          cases hc : re_search (try_cjk '话') fn with
          | some m => simp [first_match, h1, h2, h3, hc]
          | none => simp [first_match, h1, h2, h3, hc, hm4, hm5]
  · intro b e1 e2 hb he1 he2 hd1 hd2
    have hstem : ∀ e : String, e.data ≠ [] → '.' ∉ e.data →
        stemOf ⟨b.data ++ '.' :: e.data⟩ = b := by
      intro e he hd
      have hr : (String.mk (b.data ++ '.' :: e.data)).data.reverse
          = e.data.reverse ++ '.' :: b.data.reverse := by
        show (b.data ++ '.' :: e.data).reverse = _
        rw [List.reverse_append, List.reverse_cons, List.append_assoc]
        simp
      have hall : ∀ c ∈ e.data.reverse, (fun c => decide (c ≠ '.')) c = true := by
        intro c hc
        simp only [decide_eq_true_eq, ne_eq]
        intro hcc
        exact hd (by simpa [hcc] using List.mem_reverse.mp hc)
      have htake : (e.data.reverse ++ '.' :: b.data.reverse).takeWhile
          (fun c => decide (c ≠ '.')) = e.data.reverse := by
        rw [List.takeWhile_append_of_pos hall]
        simp
      have hdrop : (e.data.reverse ++ '.' :: b.data.reverse).dropWhile
          (fun c => decide (c ≠ '.')) = '.' :: b.data.reverse := by
        rw [List.dropWhile_append_of_pos hall]
        simp
      show stemOf ⟨b.data ++ '.' :: e.data⟩ = b
      unfold stemOf
      simp only [hr, htake, hdrop]
      rw [if_pos ⟨by simpa using he, by simpa using hb⟩]
      exact String.ext (by simp)
    show parse_stem (stemOf ⟨b.data ++ '.' :: e1.data⟩)
        = parse_stem (stemOf ⟨b.data ++ '.' :: e2.data⟩)
    rw [hstem e1 he1 hd1, hstem e2 he2 hd2]

/-- Witness for C10: on `show.e05`, where neither extension pattern hits, the
full cascade and the reduced cascade agree; and swapping extension mkv for
mp4 leaves the parse unchanged. -/
theorem C10_reduced_equiv_witness :
    extract_episode "show.e05".data = first_match episode_patterns_reduced "show.e05".data ∧
    parse_filename ⟨"show".data ++ '.' :: "mkv".data⟩
      = parse_filename ⟨"show".data ++ '.' :: "mp4".data⟩ :=
  ⟨C10_reduced_equiv.2.1 "show.e05".data ((re_search_eq_none_iff _ _).mp (by decide))
      ((re_search_eq_none_iff _ _).mp (by decide)),
   C10_reduced_equiv.2.2 "show" "mkv" "mp4" (by decide) (by decide) (by decide)
      (by decide) (by decide)⟩

theorem mem_scan_items (term : String) (cands : List MediaFolder) :
    ∀ processed f, f ∈ scan_items term processed cands ↔
      (f ∈ cands ∧ f ∉ processed ∧ keep_folder term f = true) := by
  induction cands with
  | nil => simp [scan_items]
  | cons g rest ih =>
    intro processed f
    by_cases hg : g ∈ processed
    · rw [show scan_items term processed (g :: rest) = scan_items term processed rest by
        simp [scan_items, hg]]
      rw [ih]
      constructor
      · rintro ⟨h1, h2, h3⟩
        exact ⟨List.mem_cons_of_mem _ h1, h2, h3⟩
      · rintro ⟨h1, h2, h3⟩
        rcases List.mem_cons.mp h1 with rfl | h1
        · exact absurd hg h2
        · exact ⟨h1, h2, h3⟩
    · by_cases hk : keep_folder term g = true
      · rw [show scan_items term processed (g :: rest) =
          g :: scan_items term (g :: processed) rest by simp [scan_items, hg, hk]]
        by_cases hfg : f = g
        · subst hfg
          simp [hg, hk]
        · simp only [List.mem_cons, ih]
          constructor
          · rintro (rfl | ⟨h1, h2, h3⟩)
            · exact absurd rfl hfg
            · exact ⟨Or.inr h1, fun hp => h2 (Or.inr hp), h3⟩
          · rintro ⟨h1 | h1, h2, h3⟩
            · exact absurd h1 hfg
            · refine Or.inr ⟨h1, ?_, h3⟩
              rintro (rfl | hp)
              · exact hfg rfl
              · exact h2 hp
      · rw [show scan_items term processed (g :: rest) =
          scan_items term (g :: processed) rest by simp [scan_items, hg, hk]]
        rw [ih]
        by_cases hfg : f = g
        · subst hfg
          simp [hk]
        · simp only [List.mem_cons]
          constructor
          · rintro ⟨h1, h2, h3⟩
            exact ⟨Or.inr h1, fun hp => h2 (Or.inr hp), h3⟩
          · rintro ⟨h1 | h1, h2, h3⟩
            · exact absurd h1 hfg
            · refine ⟨h1, ?_, h3⟩
              rintro (rfl | hp)
              · exact hfg rfl
              · exact h2 hp

/-- C6 as stated is false: neither cited boundary raises.  An empty root list
makes the scanning loop a no-op and returns an empty folder list, and a
chunk-size override of 0 (or None) with auto-selection disabled returns chunk
size 0 -- exactly the silently degraded results the claim rules out. -/
theorem C6_no_validation_counterexample :
    _scan_media_folders [] "show" = [] ∧
    _get_optimal_piece_size ⟨false, some 0, none⟩ (1024 * 1024 * 1024) = 0 ∧
    _get_optimal_piece_size ⟨false, none, none⟩ (1024 * 1024 * 1024) = 0 := by
  refine ⟨rfl, rfl, rfl⟩

/-- C6 amended: invalid caller input is not rejected -- for every search term
an empty root list yields an empty scan result, and for every total size a
zero or absent chunk-size override with auto-selection disabled yields chunk
size 0; no validation error exists on these paths. -/
theorem C6_degraded_results :
    (∀ term : String, _scan_media_folders [] term = []) ∧
    (∀ sz : Nat, _get_optimal_piece_size ⟨false, some 0, none⟩ sz = 0 ∧
      _get_optimal_piece_size ⟨false, none, none⟩ sz = 0) :=
  ⟨fun _ => rfl, fun _ => ⟨rfl, rfl⟩⟩

/-- C9: with a nonempty search term, a candidate folder that has at least one
video file is included in the scan result iff its name matches the term
(direct lowercase substring match, or some word/CJK token of the term occurs
in the lowercase name); and for every term, a folder with no video file in
its subtree is never included. -/
theorem C9_search_inclusion :
    (∀ (roots : List (List MediaFolder)) (term : String) (f : MediaFolder),
      term ≠ "" → f ∈ roots.flatten →
      (f ∈ _scan_media_folders roots term ↔
        ((f.files.filter is_video_file ≠ []) ∧ folder_matches term f.name = true))) ∧
    (∀ (roots : List (List MediaFolder)) (term : String) (f : MediaFolder),
      f.files.filter is_video_file = [] → f ∉ _scan_media_folders roots term) := by
  constructor
  · intro roots term f hterm hf
    have hd : term.data ≠ [] := by
      intro h
      exact hterm (String.ext (by simpa using h))
    have ht : term.data.isEmpty = false := by
      cases h : term.data with
      | nil => exact absurd h hd
      | cons c t => rfl
    rw [_scan_media_folders, (List.perm_insertionSort name_le _).mem_iff,
      mem_scan_items]
    simp only [keep_folder, ht, Bool.false_or, Bool.and_eq_true, Bool.not_eq_true',
      List.isEmpty_eq_false]
    constructor
    · rintro ⟨-, -, h⟩
      exact h
    · intro h
      exact ⟨hf, List.not_mem_nil f, h⟩
  · intro roots term f hvid hmem
    rw [_scan_media_folders, (List.perm_insertionSort name_le _).mem_iff,
      mem_scan_items] at hmem
    obtain ⟨-, -, hk⟩ := hmem
    rw [keep_folder] at hk
    simp [hvid] at hk

/-- Witness for C9: a folder with one video matching the term is included; a
folder with only a text file is excluded even though its name contains the
term. -/
theorem C9_search_inclusion_witness :
    (⟨"/r/game.s01", "game.s01", ["e01.mkv"]⟩ : MediaFolder) ∈
      _scan_media_folders [[⟨"/r/game.s01", "game.s01", ["e01.mkv"]⟩]] "game" ∧
    (⟨"/r/docs", "docs", ["a.txt"]⟩ : MediaFolder) ∉
      _scan_media_folders [[⟨"/r/docs", "docs", ["a.txt"]⟩]] "docs" :=
  ⟨(C9_search_inclusion.1 [[⟨"/r/game.s01", "game.s01", ["e01.mkv"]⟩]] "game"
      ⟨"/r/game.s01", "game.s01", ["e01.mkv"]⟩ (by decide) (by decide)).mpr (by decide),
   C9_search_inclusion.2 [[⟨"/r/docs", "docs", ["a.txt"]⟩]] "docs"
      ⟨"/r/docs", "docs", ["a.txt"]⟩ (by decide)⟩
